import Mathlib

/-!
Shallow embedding of `src/apex/amp/opt.py` (`OptimWrapper`) together with the
spec-described collaborator `LossScaler` / `iter_params` (the module
`apex/amp/scaler.py` is imported by `opt.py` but is not part of the sources,
so those two are modelled from the spec, §4.1).

Modelling conventions:
* a gradient element is a `Val`: either a finite rational or a non-finite
  value (infinity / NaN collapsed into one constructor);
* a parameter is represented by its gradient slot `Option Val`
  (`none` = the parameter has no `.grad`);
* `optimizer.param_groups` is a `Groups`, a list of groups, each a list of
  parameter gradient slots;
* in-place tensor mutation becomes explicit state passing on an
  `OptimWrapper` record that also carries the observable environment:
  the gradients, whether `loss.backward` is currently monkey-patched
  (`patched`), the trace of `amp_handle.remove_cache` calls (`rcTrace`),
  the number of `logging.info` messages (`infoCount`) and the number of
  times `optimizer.step` was invoked (`ostepCalls`);
* the caller's region body (the code run inside `with scale_loss(...)`) is a
  function receiving the factor by which the yielded loss was multiplied
  (1 on the inactive path, the loss scale on the active path) and the
  current gradients, returning the gradients it produced plus `some e`
  when it raised exception `e`;
* Python runtime failures are explicit outcomes: `assertFail` for the
  assertion in `_cur_loss_scaler` (and an out-of-range read of
  `_loss_scaler`), `idxErr` for an out-of-range write to `_skip_next`,
  `cacheErr` for `p.grad.data.add_` on a parameter whose `grad` is `None`,
  `notImplErr` for the `NotImplementedError` raised by `step`.
-/

/-- A gradient element: a finite rational or a non-finite value
(infinity or NaN). -/
inductive Val where
  | fin (q : ℚ)
  | nonfin
deriving DecidableEq

/-- Finiteness test of a gradient element (the overflow scan of the spec,
§4.1 step 1). -/
def Val.isFinite : Val → Bool
  | .fin _ => true
  | .nonfin => false

/-- In-place division of a gradient element by the loss scale: a non-finite
value stays non-finite. -/
def Val.div : Val → ℚ → Val
  | .fin q, s => .fin (q / s)
  | .nonfin, _ => .nonfin

/-- In-place addition of gradient elements (`tensor.add_`): any non-finite
operand makes the result non-finite. -/
def Val.add : Val → Val → Val
  | .fin a, .fin b => .fin (a + b)
  | _, _ => .nonfin

/-- The gradient slots of `optimizer.param_groups`: one list per group, one
`Option Val` per parameter. -/
abbrev Groups := List (List (Option Val))

/-- Modelled from the spec: `iter_params` (imported from the missing
`apex/amp/scaler.py`) yields every parameter of every group, in group order
("For every parameter in every group", spec §4.1). -/
def iter_params (gs : Groups) : List (Option Val) := gs.flatten

/-- Modelled from the spec: the state of a `LossScaler` (missing
`apex/amp/scaler.py`): the current scale factor and the count of
consecutive non-overflow steps since the last adjustment (spec §3, §4.1). -/
structure LossScaler where
  scale : ℚ
  unskipped : ℕ
deriving DecidableEq

/-- Modelled from the spec: a fresh `LossScaler()`; the spec fixes no
initial factor ("positive floating-point multiplier"), the conventional
dynamic-loss-scaling start of 2^16 is used. -/
def LossScaler.new : LossScaler := ⟨2 ^ 16, 0⟩

/-- Modelled from the spec: `loss_scale()` returns the current scale factor,
no side effects (spec §4.1). -/
def LossScaler.loss_scale (sc : LossScaler) : ℚ := sc.scale

/-- Division of every present gradient by the loss scale (spec §4.1 step 1:
"divide the gradient in place by loss_scale"). -/
def divAll (gs : Groups) (s : ℚ) : Groups :=
  gs.map fun row => row.map fun og => og.map fun v => v.div s

/-- Scan of every present gradient for a non-finite element (spec §4.1
step 1: "scan every such gradient for the presence of a non-finite
value"). -/
def overflowCheck (gs : Groups) : Bool :=
  (iter_params gs).any fun og =>
    match og with
    | some v => !v.isFinite
    | none => false

/-- Modelled from the spec: `LossScaler.unscale_and_update` (missing
`apex/amp/scaler.py`, contract in spec §4.1): unscale all gradients in
place, then either halve the factor (floor 1) and report overflow, or count
a success and double the factor every 2000 consecutive successes. Returns
the new gradients, the new scaler state and the overflow flag. -/
def LossScaler.unscale_and_update (sc : LossScaler) (groups : Groups) (s : ℚ) :
    Groups × LossScaler × Bool :=
  let g2 := divAll groups s
  if overflowCheck g2 then
    (g2, ⟨max 1 (sc.scale / 2), 0⟩, true)
  else if sc.unskipped + 1 = 2000 then
    (g2, ⟨sc.scale * 2, 0⟩, false)
  else
    (g2, ⟨sc.scale, sc.unskipped + 1⟩, false)

/-- State of an `OptimWrapper` (src/apex/amp/opt.py lines 9-16) plus the
observable environment it mutates (see the module docstring). Fields
`num_loss`, `loss_idx`, `skip_next`, `loss_scaler` are the attributes
`_num_loss`, `_loss_idx`, `_skip_next`, `_loss_scaler`; `groups` is
`_optimizer.param_groups`; `active` is `_amp_handle.is_active()`. -/
structure OptimWrapper where
  num_loss : ℕ
  loss_idx : ℕ
  skip_next : List Bool
  loss_scaler : List LossScaler
  groups : Groups
  active : Bool
  patched : Bool
  rcTrace : List (ℕ × ℕ)
  infoCount : ℕ
  ostepCalls : ℕ
deriving DecidableEq

/-- Embedding of `OptimWrapper.__init__` (src lines 10-16): stores the
optimizer and handle, sets `_loss_idx = 0`, `_skip_next = [False] *
num_loss`, `_loss_scaler = [LossScaler() for _ in range(num_loss)]`. -/
def OptimWrapper.init (optGroups : Groups) (active : Bool) (num_loss : ℕ) :
    OptimWrapper where
  num_loss := num_loss
  loss_idx := 0
  skip_next := List.replicate num_loss false
  loss_scaler := List.replicate num_loss LossScaler.new
  groups := optGroups
  active := active
  patched := false
  rcTrace := []
  infoCount := 0
  ostepCalls := 0

/-- Modelled from the spec: `optimizer.zero_grad()` of the external
underlying optimizer, as used in `scale_loss` — "every gradient must be
cleared to a zero/absent state" (spec §4.2a); cleared slots are modelled as
absent. -/
def zeroGrad (gs : Groups) : Groups :=
  gs.map fun row => row.map fun _ => (none : Option Val)

/-- Embedding of `OptimWrapper._cur_loss_scaler` (src lines 60-62):
`assert 0 <= self._loss_idx < self._num_loss` then
`self._loss_scaler[self._loss_idx]`. Returns `none` when the assertion (or
the list lookup) fails. -/
def OptimWrapper.curLossScaler (st : OptimWrapper) : Option LossScaler :=
  if st.loss_idx < st.num_loss then st.loss_scaler.get? st.loss_idx else none

/-- One step of the cached-gradient restoration zip (src lines 53-57):
walks one group's parameters against the flat cache, performing
`p.grad.data.add_(cached_grad)` whenever the cached entry is present.
Returns `none` when a present cached entry meets an absent gradient (the
`p.grad.data` AttributeError), otherwise the updated parameters and the
remaining cache. -/
def addCachedParams :
    List (Option Val) → List (Option Val) →
      Option (List (Option Val) × List (Option Val))
  | [], cs => some ([], cs)
  | ps, [] => some (ps, [])
  | p :: ps, c :: cs =>
    match c with
    | none =>
      match addCachedParams ps cs with
      | none => none
      | some (ps2, rest) => some (p :: ps2, rest)
    | some cv =>
      match p with
      | none => none
      | some g =>
        match addCachedParams ps cs with
        | none => none
        | some (ps2, rest) => some (some (g.add cv) :: ps2, rest)

/-- Cached-gradient restoration over all groups (src lines 53-57): the zip
`zip(iter_params(param_groups), cached_grads)` threads the flat cache
through the groups in iteration order. -/
def addCachedGroups : Groups → List (Option Val) → Option Groups
  | [], _ => some []
  | g :: gs, cs =>
    match addCachedParams g cs with
    | none => none
    | some (g2, rest) =>
      match addCachedGroups gs rest with
      | none => none
      | some gs2 => some (g2 :: gs2)

/-- Pointwise effect of the restoration zip on one in-range pair with a
present gradient: absent cached entries contribute nothing, present ones
are added in place. -/
def restoreOne (p c : Option Val) : Option Val :=
  match c with
  | none => p
  | some cv =>
    match p with
    | some g => some (g.add cv)
    | none => none

/-- Outcome of one `scale_loss` region: normal completion, an exception of
the caller's body propagating out, an assertion failure in
`_cur_loss_scaler`, an out-of-range `_skip_next` write, or the
AttributeError of the cached-gradient restoration. Each carries the state
at that point. -/
inductive SLRes (ε : Type) where
  | ok (st : OptimWrapper)
  | exn (e : ε) (st : OptimWrapper)
  | assertFail (st : OptimWrapper)
  | idxErr (st : OptimWrapper)
  | cacheErr (st : OptimWrapper)
deriving DecidableEq

/-- The wrapper state carried by a `scale_loss` outcome. -/
def SLRes.state {ε : Type} : SLRes ε → OptimWrapper
  | .ok st => st
  | .exn _ st => st
  | .assertFail st => st
  | .idxErr st => st
  | .cacheErr st => st

/-- Whether a `scale_loss` outcome is an index-bounds fault (the assertion
of `_cur_loss_scaler` or the `_skip_next[idx]` write). -/
def SLRes.boundsFault {ε : Type} : SLRes ε → Bool
  | .assertFail _ => true
  | .idxErr _ => true
  | _ => false

/-- Whether a `scale_loss` outcome is a propagated body exception. -/
def SLRes.isExn {ε : Type} : SLRes ε → Bool
  | .exn _ _ => true
  | _ => false

/-- Embedding of `OptimWrapper.scale_loss` (src lines 18-58). The inactive
path yields the loss unchanged (the body sees factor 1). The active path
patches `loss.backward`, caches and clears the gradients when this is not
the cycle's first loss, yields `loss * loss_scale` (the body sees the
factor), restores `loss.backward` after a normal body, unscales and
updates the current scaler, records the skip flag, advances `_loss_idx`
and restores the cached gradients. -/
def OptimWrapper.scale_loss {ε : Type}
    (body : ℚ → Groups → Groups × Option ε) (st : OptimWrapper) : SLRes ε :=
  if st.active = false then
    match body 1 st.groups with
    | (g, some e) => .exn e { st with groups := g }
    | (g, none) => .ok { st with groups := g }
  else
    let st1 := { st with patched := true }
    let cached : List (Option Val) :=
      if 0 < st1.loss_idx then iter_params st1.groups else []
    let st2 :=
      if 0 < st1.loss_idx then { st1 with groups := zeroGrad st1.groups }
      else st1
    match OptimWrapper.curLossScaler st2 with
    | none => .assertFail st2
    | some sc =>
      let s := sc.loss_scale
      match body s st2.groups with
      | (g, some e) => .exn e { st2 with groups := g }
      | (g, none) =>
        let st3 := { st2 with groups := g, patched := false }
        match OptimWrapper.curLossScaler st3 with
        | none => .assertFail st3
        | some sc2 =>
          let r := sc2.unscale_and_update st3.groups s
          if st3.loss_idx < st3.skip_next.length then
            let st4 := { st3 with
              groups := r.1
              loss_scaler := st3.loss_scaler.set st3.loss_idx r.2.1
              skip_next := st3.skip_next.set st3.loss_idx r.2.2
              loss_idx := st3.loss_idx + 1 }
            if 0 < cached.length then
              match addCachedGroups st4.groups cached with
              | some g2 => .ok { st4 with groups := g2 }
              | none => .cacheErr st4
            else .ok st4
          else .idxErr st3

/-- The positions (group index, parameter index) of every parameter of
every group, in iteration order: the parameters visited by the
`remove_cache` loop of `step` (src lines 69-71). -/
def paramIdxs (gs : Groups) : List (ℕ × ℕ) :=
  (gs.enum.map fun gi => (List.range gi.2.length).map fun j => (gi.1, j)).flatten

/-- Outcome of `step`: a return value (`none` models Python's implicit
`return None` on the skip path) or the raised `NotImplementedError`, each
with the state at that point. -/
inductive StepRes (α : Type) where
  | ret (st : OptimWrapper) (r : Option α)
  | notImplErr (st : OptimWrapper)
deriving DecidableEq

/-- The wrapper state carried by a `step` outcome. -/
def StepRes.state {α : Type} : StepRes α → OptimWrapper
  | .ret st _ => st
  | .notImplErr st => st

/-- Embedding of `OptimWrapper.step` (src lines 64-82). The underlying
optimizer's `step` is the abstract collaborator `ostep`, receiving the
closure argument and the gradients and returning the new gradients and its
result; every invocation of it is counted in `ostepCalls`. -/
def OptimWrapper.step {γ α : Type} (ostep : Option γ → Groups → Groups × α)
    (closure : Option γ) (st : OptimWrapper) : StepRes α :=
  if st.active = false then
    let r := ostep closure st.groups
    .ret { st with groups := r.1, ostepCalls := st.ostepCalls + 1 } (some r.2)
  else
    let st1 := { st with loss_idx := 0 }
    let st2 := { st1 with rcTrace := st1.rcTrace ++ paramIdxs st1.groups }
    match closure with
    | some _ => .notImplErr st2
    | none =>
      if st2.skip_next.any id then
        .ret { st2 with
          infoCount := st2.infoCount + 1
          skip_next := List.replicate st2.num_loss false } none
      else
        let r := ostep none st2.groups
        .ret { st2 with groups := r.1, ostepCalls := st2.ostepCalls + 1 }
          (some r.2)

/-- Embedding of the nested `warning_wrapper` (src lines 25-30), installed
as `loss.backward` inside an active region: it emits one warning and then
performs the original backward call on the current state. `loss_backward`
is the saved original backward, `warn_log` the count of emitted warnings,
`x` the state the backward call acts on. -/
def warning_wrapper {σ : Type} (loss_backward : σ → σ) (warn_log : ℕ)
    (x : σ) : ℕ × σ :=
  (warn_log + 1, loss_backward x)

/-- The optimizer capabilities the wrapper forwards explicitly
(src lines 88-108). -/
inductive FwdMethod where
  | getstate
  | setstate
  | toRepr
  | state_dict
  | load_state_dict
  | zero_grad
  | add_param_group
deriving DecidableEq

/-- Number of arguments besides `self` accepted by the wrapper's forwarding
method, read off the `def` lines of src lines 89-108. -/
def wrapperArity : FwdMethod → ℕ
  | .getstate => 0
  | .setstate => 0
  | .toRepr => 0
  | .state_dict => 0
  | .load_state_dict => 1
  | .zero_grad => 0
  | .add_param_group => 1

/-- Number of arguments the wrapper's forwarding method passes on to the
underlying optimizer's method, read off the call in each body
(src lines 89-108). -/
def wrapperForwardedArgs : FwdMethod → ℕ
  | .getstate => 0
  | .setstate => 0
  | .toRepr => 0
  | .state_dict => 0
  | .load_state_dict => 1
  | .zero_grad => 0
  | .add_param_group => 1

/-- Modelled from the spec: number of arguments besides `self` of the
underlying optimizer's methods (spec §6: `step(closure)`, `zero_grad()`,
`state_dict()`, `load_state_dict(state)`, `add_param_group(group)`, string
representation, serialization hooks — state deserialization receives the
deserialized state). -/
def optimizerArity : FwdMethod → ℕ
  | .getstate => 0
  | .setstate => 1
  | .toRepr => 0
  | .state_dict => 0
  | .load_state_dict => 1
  | .zero_grad => 0
  | .add_param_group => 1

/-- A sequence of `scale_loss` regions run in order, stopping at the first
abnormal outcome. -/
def runScaleLosses {ε : Type} :
    List (ℚ → Groups → Groups × Option ε) → OptimWrapper → SLRes ε
  | [], st => .ok st
  | b :: bs, st =>
    match OptimWrapper.scale_loss b st with
    | .ok st2 => runScaleLosses bs st2
    | r => r

/-- The backward pass of a loss whose true (unscaled) per-parameter
gradients are `gtrue`, run on the loss multiplied by `s`: each parameter's
gradient accumulates `s * g`, an absent gradient counting as zero. -/
def backwardAdd (s : ℚ) (gtrue : List (List ℚ)) (gs : Groups) : Groups :=
  List.zipWith
    (fun row grow =>
      List.zipWith
        (fun og x => some (Val.add (og.getD (Val.fin 0)) (Val.fin (s * x))))
        row grow)
    gs gtrue

/-- A region body that calls backward once on the yielded (scaled) loss and
raises nothing. -/
def backwardBody (gtrue : List (List ℚ)) :
    ℚ → Groups → Groups × Option Empty :=
  fun s gs => (backwardAdd s gtrue gs, none)

/-- Gradient slots of the given shape, all absent (the state of the
parameters at the start of a step cycle). -/
def zeroShape (g : List (List ℚ)) : Groups :=
  g.map fun row => row.map fun _ => (none : Option Val)

/-- The length invariant of spec §3:
`len(skip_flags) == len(scalers) == num_losses`. -/
def lenInv (st : OptimWrapper) : Prop :=
  st.skip_next.length = st.num_loss ∧ st.loss_scaler.length = st.num_loss

/-- A region body that raises an exception without touching the
gradients. -/
def raiseBody : ℚ → Groups → Groups × Option Unit :=
  fun _ gs => (gs, some ())

/-- Concrete gradient slots used to evaluate the theorems on concrete
inputs. -/
def sampleGroups : Groups := [[some (Val.fin 3), none], [some (Val.fin 5)]]

/-- A concrete active wrapper over `sampleGroups` with two loss slots. -/
def sampleActive : OptimWrapper := OptimWrapper.init sampleGroups true 2

/-- A concrete inactive wrapper over `sampleGroups`. -/
def sampleInactive : OptimWrapper := OptimWrapper.init sampleGroups false 2

/-- `sampleActive` after an overflow was recorded for loss slot 1. -/
def sampleSkip : OptimWrapper := { sampleActive with skip_next := [false, true] }

/-- A concrete underlying-optimizer `step` collaborator. -/
def sampleOstep : Option Unit → Groups → Groups × ℕ := fun _ gs => (gs, 7)

/-- A concrete region body backpropagating fixed finite gradients. -/
def sampleBody : ℚ → Groups → Groups × Option Unit :=
  fun s gs => (backwardAdd s [[1, 2], [3]] gs, none)

/-! Shared lemmas about the branches of `scale_loss` and `step`. -/

/-- Every outcome of `scale_loss` preserves `num_loss`, the activity flag
and the lengths of `skip_next` and `loss_scaler`. -/
lemma scale_loss_state_fields {ε : Type} (body : ℚ → Groups → Groups × Option ε)
    (st : OptimWrapper) :
    (OptimWrapper.scale_loss body st).state.num_loss = st.num_loss ∧
    (OptimWrapper.scale_loss body st).state.active = st.active ∧
    (OptimWrapper.scale_loss body st).state.skip_next.length = st.skip_next.length ∧
    (OptimWrapper.scale_loss body st).state.loss_scaler.length = st.loss_scaler.length := by
  cases hact : st.active with
  | false =>
    rcases hb : body 1 st.groups with ⟨g, oe⟩
    cases oe <;> simp [OptimWrapper.scale_loss, hact, hb, SLRes.state]
  | true =>
    rcases Nat.eq_zero_or_pos st.loss_idx with hidx | hidx
    · simp only [OptimWrapper.scale_loss, hact, hidx, Bool.true_eq_false, if_false,
        lt_irrefl, Nat.lt_irrefl]
      repeat' split
      all_goals try simp_all [SLRes.state, List.length_set]
    · simp only [OptimWrapper.scale_loss, hact, Bool.true_eq_false, if_false, hidx, if_pos]
      repeat' split
      all_goals try simp_all [SLRes.state, List.length_set]

/-- On a normal completion of an active region, the backward interception
has been undone and the loss cursor advanced by one. -/
lemma scale_loss_ok_patched {ε : Type} (body : ℚ → Groups → Groups × Option ε)
    (st st2 : OptimWrapper) (hact : st.active = true)
    (h : OptimWrapper.scale_loss body st = .ok st2) :
    st2.patched = false ∧ st2.loss_idx = st.loss_idx + 1 := by
  rcases Nat.eq_zero_or_pos st.loss_idx with hidx | hidx <;>
    [simp only [OptimWrapper.scale_loss, hact, hidx, Bool.true_eq_false, if_false,
      lt_irrefl, Nat.lt_irrefl] at h;
     simp only [OptimWrapper.scale_loss, hact, Bool.true_eq_false, if_false, hidx,
      if_pos] at h] <;>
  · repeat' split at h
    all_goals try exact (SLRes.noConfusion h)
    all_goals try (injection h with h2; rw [← h2]; try simp [hidx])
    all_goals try (rw [← h]; try simp [hidx])
    all_goals simp_all

/-- On an exceptional exit of an active region, the backward interception
is still in place. -/
lemma scale_loss_exn_patched {ε : Type} (body : ℚ → Groups → Groups × Option ε)
    (st st2 : OptimWrapper) (e : ε) (hact : st.active = true)
    (h : OptimWrapper.scale_loss body st = .exn e st2) :
    st2.patched = true := by
  rcases Nat.eq_zero_or_pos st.loss_idx with hidx | hidx <;>
    [simp only [OptimWrapper.scale_loss, hact, hidx, Bool.true_eq_false, if_false,
      lt_irrefl, Nat.lt_irrefl] at h;
     simp only [OptimWrapper.scale_loss, hact, Bool.true_eq_false, if_false, hidx,
      if_pos] at h] <;>
  · repeat' split at h
    all_goals try exact (SLRes.noConfusion h)
    all_goals try (injection h with h2 h3; rw [← h3]; try simp)
    all_goals simp_all

/-- A completed region advances the loss cursor by at most one (exactly one
when active, zero when inactive). -/
lemma scale_loss_ok_idx_le {ε : Type} (body : ℚ → Groups → Groups × Option ε)
    (st st2 : OptimWrapper)
    (h : OptimWrapper.scale_loss body st = .ok st2) :
    st2.loss_idx ≤ st.loss_idx + 1 := by
  cases hact : st.active with
  | false =>
    rcases hb : body 1 st.groups with ⟨g, oe⟩
    cases oe <;> simp only [OptimWrapper.scale_loss, hact, if_pos, hb] at h
    all_goals try exact (SLRes.noConfusion h)
    all_goals try (injection h with h2; rw [← h2]; try simp)
  | true =>
    rcases Nat.eq_zero_or_pos st.loss_idx with hidx | hidx <;>
      [simp only [OptimWrapper.scale_loss, hact, hidx, Bool.true_eq_false, if_false,
        lt_irrefl, Nat.lt_irrefl] at h;
       simp only [OptimWrapper.scale_loss, hact, Bool.true_eq_false, if_false, hidx,
        if_pos] at h] <;>
    · repeat' split at h
      all_goals try exact (SLRes.noConfusion h)
      all_goals try (injection h with h2; rw [← h2]; try simp [hidx])
      all_goals try (rw [← h]; try simp [hidx])
      all_goals simp_all

/-- While the cursor is below `num_loss` and the length invariant holds,
a region never hits the `_cur_loss_scaler` assertion or an out-of-range
`_skip_next` write. -/
lemma scale_loss_no_boundsFault {ε : Type} (body : ℚ → Groups → Groups × Option ε)
    (st : OptimWrapper) (hlt : st.loss_idx < st.num_loss)
    (hsc : st.loss_scaler.length = st.num_loss)
    (hsk : st.skip_next.length = st.num_loss) :
    (OptimWrapper.scale_loss body st).boundsFault = false := by
  have hcur : st.loss_scaler.get? st.loss_idx ≠ none := by
    rw [List.get?_eq_getElem?, ne_eq, List.getElem?_eq_none_iff]
    omega
  cases hact : st.active with
  | false =>
    rcases hb : body 1 st.groups with ⟨g, oe⟩
    cases oe <;> simp_all [OptimWrapper.scale_loss, hact, hb, SLRes.boundsFault]
  | true =>
    rcases Nat.eq_zero_or_pos st.loss_idx with hidx | hidx <;>
      [simp only [OptimWrapper.scale_loss, hact, hidx, Bool.true_eq_false, if_false,
        lt_irrefl, Nat.lt_irrefl];
       simp only [OptimWrapper.scale_loss, hact, Bool.true_eq_false, if_false, hidx,
        if_pos]] <;>
    · repeat' split
      all_goals try simp_all [SLRes.boundsFault, OptimWrapper.curLossScaler]
      all_goals omega

/-- Every outcome of `step` preserves the length invariant. -/
lemma step_lenInv {γ α : Type} (ostep : Option γ → Groups → Groups × α)
    (closure : Option γ) (st : OptimWrapper) (hinv : lenInv st) :
    lenInv (OptimWrapper.step ostep closure st).state := by
  obtain ⟨h1, h2⟩ := hinv
  cases closure <;> cases hsk : st.skip_next.any id <;>
    unfold OptimWrapper.step <;> repeat' split
  all_goals simp_all [lenInv, StepRes.state]

/-- A run of consecutive regions whose count fits in the remaining loss
slots never bounds-faults. -/
lemma runScaleLosses_no_boundsFault {ε : Type} :
    ∀ (bodies : List (ℚ → Groups → Groups × Option ε)) (st : OptimWrapper),
      st.loss_idx + bodies.length ≤ st.num_loss →
      st.skip_next.length = st.num_loss →
      st.loss_scaler.length = st.num_loss →
      (runScaleLosses bodies st).boundsFault = false
  | [], _, _, _, _ => by simp [runScaleLosses, SLRes.boundsFault]
  | b :: bs, st, hle, hsk, hsc => by
    have hlt : st.loss_idx < st.num_loss := by
      have := List.length_cons b bs
      omega
    have hfault := scale_loss_no_boundsFault b st hlt hsc hsk
    have hfields := scale_loss_state_fields b st
    unfold runScaleLosses
    cases hres : OptimWrapper.scale_loss b st with
    | ok st2 =>
      rw [hres] at hfields
      have hidx2 := scale_loss_ok_idx_le b st st2 hres
      have hlen := List.length_cons b bs
      exact runScaleLosses_no_boundsFault bs st2
        (by simp only [SLRes.state] at hfields; omega)
        (by simp only [SLRes.state] at hfields
            omega)
        (by simp only [SLRes.state] at hfields
            omega)
    | exn e st2 => rw [hres] at hfault; exact hfault
    | assertFail st2 => rw [hres] at hfault; exact hfault
    | idxErr st2 => rw [hres] at hfault; exact hfault
    | cacheErr st2 => rw [hres] at hfault; exact hfault

/-! Claim theorems. -/

/-- C2: on an active wrapper, `step()` with `closure = None` first resets
`current_loss_index` to 0; if any skip flag is set the underlying
optimizer's step is not invoked, the flags are reset and the call returns
without forwarding (result `none`, `ostepCalls` unchanged); if no flag is
set the call is forwarded to the underlying step and its result
returned. -/
theorem step_active_none_semantics {γ α : Type}
    (ostep : Option γ → Groups → Groups × α) (st : OptimWrapper)
    (hact : st.active = true) :
    (OptimWrapper.step ostep none st).state.loss_idx = 0 ∧
    (st.skip_next.any id = true →
      OptimWrapper.step ostep none st =
        .ret { st with loss_idx := 0,
                       rcTrace := st.rcTrace ++ paramIdxs st.groups,
                       infoCount := st.infoCount + 1,
                       skip_next := List.replicate st.num_loss false } none) ∧
    (st.skip_next.any id = false →
      OptimWrapper.step ostep none st =
        .ret { st with loss_idx := 0,
                       rcTrace := st.rcTrace ++ paramIdxs st.groups,
                       groups := (ostep none st.groups).1,
                       ostepCalls := st.ostepCalls + 1 }
          (some (ostep none st.groups).2)) := by
  refine ⟨?_, ?_, ?_⟩
  · cases hsk : st.skip_next.any id <;>
      simp [OptimWrapper.step, hact, hsk, StepRes.state]
  · intro hsk; simp [OptimWrapper.step, hact, hsk]
  · intro hsk; simp [OptimWrapper.step, hact, hsk]

/-- Witness for C2: the two branches evaluated on concrete wrappers. -/
theorem step_active_none_semantics_witness :
    OptimWrapper.step sampleOstep none sampleSkip =
      .ret { sampleSkip with
               loss_idx := 0,
               rcTrace := sampleSkip.rcTrace ++ paramIdxs sampleSkip.groups,
               infoCount := sampleSkip.infoCount + 1,
               skip_next := List.replicate sampleSkip.num_loss false } none ∧
    OptimWrapper.step sampleOstep none sampleActive =
      .ret { sampleActive with
               loss_idx := 0,
               rcTrace := sampleActive.rcTrace ++ paramIdxs sampleActive.groups,
               groups := (sampleOstep none sampleActive.groups).1,
               ostepCalls := sampleActive.ostepCalls + 1 }
        (some (sampleOstep none sampleActive.groups).2) :=
  ⟨(step_active_none_semantics sampleOstep sampleSkip (by decide)).2.1 (by decide),
   (step_active_none_semantics sampleOstep sampleActive (by decide)).2.2 (by decide)⟩

/-- C3: on an active wrapper, `step()` with a non-`None` closure raises the
unsupported error (`NotImplementedError`); it never returns, so the closure
is neither silently ignored nor forwarded (`ostepCalls` unchanged in the
raised state). -/
theorem step_closure_active_raises {γ α : Type}
    (ostep : Option γ → Groups → Groups × α) (st : OptimWrapper)
    (hact : st.active = true) (c : γ) :
    OptimWrapper.step ostep (some c) st =
      .notImplErr { st with loss_idx := 0,
                            rcTrace := st.rcTrace ++ paramIdxs st.groups } ∧
    ∀ (st2 : OptimWrapper) (r : Option α),
      OptimWrapper.step ostep (some c) st ≠ .ret st2 r := by
  have h : OptimWrapper.step ostep (some c) st =
      .notImplErr { st with loss_idx := 0,
                            rcTrace := st.rcTrace ++ paramIdxs st.groups } := by
    simp [OptimWrapper.step, hact]
  exact ⟨h, fun st2 r hr => by rw [h] at hr; exact StepRes.noConfusion hr⟩

/-- Witness for C3 at a concrete wrapper and closure. -/
theorem step_closure_active_raises_witness :
    OptimWrapper.step sampleOstep (some ()) sampleActive =
      .notImplErr { sampleActive with
        loss_idx := 0,
        rcTrace := sampleActive.rcTrace ++ paramIdxs sampleActive.groups } :=
  (step_closure_active_raises sampleOstep sampleActive (by decide) ()).1

/-- C4: when the handle is inactive, `step` forwards the closure to the
underlying optimizer and returns its result unchanged (only the gradients
and the call counter move), and a `scale_loss` region is a passthrough:
the body sees the original loss (factor 1) and no wrapper state
(`current_loss_index`, `skip_flags`, scalers, interception flag) is
modified. -/
theorem inactive_passthrough {γ α ε : Type}
    (ostep : Option γ → Groups → Groups × α) (closure : Option γ)
    (st : OptimWrapper) (hina : st.active = false)
    (body : ℚ → Groups → Groups × Option ε) :
    OptimWrapper.step ostep closure st =
      .ret { st with groups := (ostep closure st.groups).1,
                     ostepCalls := st.ostepCalls + 1 }
        (some (ostep closure st.groups).2) ∧
    OptimWrapper.scale_loss body st =
      (match body 1 st.groups with
       | (g, some e) => SLRes.exn e { st with groups := g }
       | (g, none) => SLRes.ok { st with groups := g }) ∧
    (OptimWrapper.scale_loss body st).state.loss_idx = st.loss_idx ∧
    (OptimWrapper.scale_loss body st).state.skip_next = st.skip_next ∧
    (OptimWrapper.scale_loss body st).state.loss_scaler = st.loss_scaler ∧
    (OptimWrapper.scale_loss body st).state.patched = st.patched := by
  have hstep : OptimWrapper.step ostep closure st =
      .ret { st with groups := (ostep closure st.groups).1,
                     ostepCalls := st.ostepCalls + 1 }
        (some (ostep closure st.groups).2) := by
    simp [OptimWrapper.step, hina]
  rcases hb : body 1 st.groups with ⟨g, oe⟩
  cases oe <;>
    exact ⟨hstep, by simp [OptimWrapper.scale_loss, hina, hb],
      by simp [OptimWrapper.scale_loss, hina, hb, SLRes.state],
      by simp [OptimWrapper.scale_loss, hina, hb, SLRes.state],
      by simp [OptimWrapper.scale_loss, hina, hb, SLRes.state],
      by simp [OptimWrapper.scale_loss, hina, hb, SLRes.state]⟩

/-- Witness for C4 on a concrete inactive wrapper. -/
theorem inactive_passthrough_witness :
    OptimWrapper.step sampleOstep (some ()) sampleInactive =
      .ret { sampleInactive with
               groups := (sampleOstep (some ()) sampleInactive.groups).1,
               ostepCalls := sampleInactive.ostepCalls + 1 }
        (some (sampleOstep (some ()) sampleInactive.groups).2) ∧
    (OptimWrapper.scale_loss sampleBody sampleInactive).state.skip_next =
      sampleInactive.skip_next :=
  ⟨(inactive_passthrough sampleOstep (some ()) sampleInactive (by decide)
      sampleBody).1,
   (inactive_passthrough sampleOstep (some ()) sampleInactive (by decide)
      sampleBody).2.2.2.1⟩

/-- C9: the installed `warning_wrapper` emits exactly one warning-level
diagnostic and then still performs the original backward call; it raises
nothing (it is a total function returning the original call's result). -/
theorem warning_then_original_backward {σ : Type} (loss_backward : σ → σ)
    (warn_log : ℕ) (x : σ) :
    warning_wrapper loss_backward warn_log x = (warn_log + 1, loss_backward x) :=
  rfl

/-- C10: on an active wrapper, the unsupported-closure error is raised only
after `current_loss_index` was reset to 0 and `remove_cache` was invoked
for every parameter of every parameter group. -/
theorem step_closure_error_not_atomic {γ α : Type}
    (ostep : Option γ → Groups → Groups × α) (st : OptimWrapper)
    (hact : st.active = true) (c : γ) :
    (OptimWrapper.step ostep (some c) st).state.loss_idx = 0 ∧
    (OptimWrapper.step ostep (some c) st).state.rcTrace =
      st.rcTrace ++ paramIdxs st.groups ∧
    OptimWrapper.step ostep (some c) st =
      .notImplErr (OptimWrapper.step ostep (some c) st).state := by
  refine ⟨?_, ?_, ?_⟩ <;> simp [OptimWrapper.step, hact, StepRes.state]

/-- Witness for C10 on a concrete wrapper: the raised state already has the
reset cursor and the full cache-removal trace. -/
theorem step_closure_error_not_atomic_witness :
    (OptimWrapper.step sampleOstep (some ()) sampleActive).state.loss_idx = 0 ∧
    (OptimWrapper.step sampleOstep (some ()) sampleActive).state.rcTrace =
      sampleActive.rcTrace ++ paramIdxs sampleActive.groups :=
  ⟨(step_closure_error_not_atomic sampleOstep sampleActive (by decide) ()).1,
   (step_closure_error_not_atomic sampleOstep sampleActive (by decide) ()).2.1⟩

/-- C6 (code bug): the forwarding methods of the wrapper match the
underlying optimizer's signatures and forward all their arguments —
except `__setstate__`, which accepts no state argument (the underlying one
requires one) and forwards none, so state deserialization cannot work. -/
theorem forwarded_methods_signature :
    wrapperArity FwdMethod.setstate = 0 ∧
    optimizerArity FwdMethod.setstate = 1 ∧
    wrapperForwardedArgs FwdMethod.setstate ≠ optimizerArity FwdMethod.setstate ∧
    ∀ m : FwdMethod, m = FwdMethod.setstate ∨
      (wrapperArity m = optimizerArity m ∧
       wrapperForwardedArgs m = optimizerArity m) := by
  refine ⟨rfl, rfl, by decide, ?_⟩
  intro m
  cases m <;> simp [wrapperArity, optimizerArity, wrapperForwardedArgs]

/-- C5 (counterexample): a concrete active region whose body raises exits
exceptionally with the backward interception still installed — the
restoration does not run on this exit path. -/
theorem scale_loss_exn_leaves_backward_patched :
    (OptimWrapper.scale_loss raiseBody
      (OptimWrapper.init [[some (Val.fin 3)]] true 1)).isExn = true ∧
    (OptimWrapper.scale_loss raiseBody
      (OptimWrapper.init [[some (Val.fin 3)]] true 1)).state.patched = true := by
  decide

/-- C5 (amended): in an active region the original backward capability is
restored on every normal completion of the region body; when the body
raises, the exception propagates with the interception still in place. -/
theorem scale_loss_backward_restoration {ε : Type}
    (body : ℚ → Groups → Groups × Option ε) (st : OptimWrapper)
    (hact : st.active = true) :
    (∀ st2 : OptimWrapper,
      OptimWrapper.scale_loss body st = .ok st2 → st2.patched = false) ∧
    (∀ (e : ε) (st2 : OptimWrapper),
      OptimWrapper.scale_loss body st = .exn e st2 → st2.patched = true) :=
  ⟨fun st2 h => (scale_loss_ok_patched body st st2 hact h).1,
   fun e st2 h => scale_loss_exn_patched body st st2 e hact h⟩

/-- Witness for the amended C5 on a concrete normally-completing region. -/
theorem scale_loss_backward_restoration_witness :
    (OptimWrapper.scale_loss sampleBody sampleActive).state.patched = false :=
  (scale_loss_backward_restoration sampleBody sampleActive (by decide)).1
    (OptimWrapper.scale_loss sampleBody sampleActive).state rfl

/-- C7: construction establishes `len(skip_flags) = len(scalers) =
num_losses`, and both `scale_loss` and `step` preserve it in every
outcome. -/
theorem length_invariant_preserved :
    (∀ (gs : Groups) (a : Bool) (n : ℕ), lenInv (OptimWrapper.init gs a n)) ∧
    (∀ (ε : Type) (body : ℚ → Groups → Groups × Option ε) (st : OptimWrapper),
      lenInv st → lenInv (OptimWrapper.scale_loss body st).state) ∧
    (∀ (γ α : Type) (ostep : Option γ → Groups → Groups × α)
      (closure : Option γ) (st : OptimWrapper),
      lenInv st → lenInv (OptimWrapper.step ostep closure st).state) := by
  refine ⟨?_, ?_, ?_⟩
  · intro gs a n
    simp [lenInv, OptimWrapper.init]
  · intro ε body st hinv
    obtain ⟨hf1, hf2, hf3, hf4⟩ := scale_loss_state_fields body st
    exact ⟨by rw [hf3, hf1]; exact hinv.1, by rw [hf4, hf1]; exact hinv.2⟩
  · intro γ α ostep closure st hinv
    exact step_lenInv ostep closure st hinv

/-- Witness for C7 along a concrete construction, region and step. -/
theorem length_invariant_preserved_witness :
    lenInv (OptimWrapper.init sampleGroups true 2) ∧
    lenInv (OptimWrapper.scale_loss sampleBody sampleActive).state ∧
    lenInv (OptimWrapper.step sampleOstep none sampleSkip).state :=
  ⟨length_invariant_preserved.1 sampleGroups true 2,
   length_invariant_preserved.2.1 Unit sampleBody sampleActive ⟨rfl, rfl⟩,
   length_invariant_preserved.2.2 Unit ℕ sampleOstep none sampleSkip ⟨rfl, rfl⟩⟩

/-- C8: starting a cycle with `current_loss_index = 0` and the length
invariant, any run of at most `num_losses` regions before the next `step()`
keeps every scaler/skip-flag access in `0 ≤ current_loss_index < num_losses`:
no `_cur_loss_scaler` assertion failure and no out-of-range access
occurs. -/
theorem scale_loss_index_bounds {ε : Type}
    (bodies : List (ℚ → Groups → Groups × Option ε)) (st : OptimWrapper)
    (hstart : st.loss_idx = 0)
    (hsk : st.skip_next.length = st.num_loss)
    (hsc : st.loss_scaler.length = st.num_loss)
    (hn : bodies.length ≤ st.num_loss) :
    (runScaleLosses bodies st).boundsFault = false :=
  runScaleLosses_no_boundsFault bodies st (by omega) hsk hsc

/-- Witness for C8: two regions on a fresh two-loss wrapper. -/
theorem scale_loss_index_bounds_witness :
    (runScaleLosses [sampleBody, sampleBody] sampleActive).boundsFault = false :=
  scale_loss_index_bounds [sampleBody, sampleBody] sampleActive rfl
    rfl rfl (by decide)
/-! Helper lemmas for the two-loss accumulation scenario (C1). -/

/-- Membership in a `zipWith` comes from members of both lists. -/
lemma mem_zipWith_elim {α β γ : Type} {f : α → β → γ} {c : γ} :
    ∀ {l1 : List α} {l2 : List β}, c ∈ List.zipWith f l1 l2 →
      ∃ a ∈ l1, ∃ b ∈ l2, c = f a b
  | a :: l1, b :: l2, h => by
    rcases List.mem_cons.mp h with h | h
    · exact ⟨a, List.mem_cons_self a l1, b, List.mem_cons_self b l2, h⟩
    · obtain ⟨a2, ha, b2, hb, hc⟩ := mem_zipWith_elim h
      exact ⟨a2, List.mem_cons_of_mem a ha, b2, List.mem_cons_of_mem b hb, hc⟩

/-- Unscaling by the factor used for backpropagation recovers the true
gradients when backpropagation started from absent gradients. -/
lemma round_trip_first (g : List (List ℚ)) (s : ℚ) (hs : s ≠ 0) :
    divAll (backwardAdd s g (zeroShape g)) s =
      g.map fun row => row.map fun x => some (Val.fin x) := by
  unfold divAll backwardAdd zeroShape
  induction g with
  | nil => rfl
  | cons r t ih =>
    simp only [List.map_cons, List.zipWith_cons_cons, List.cons.injEq]
    refine ⟨?_, ih⟩
    induction r with
    | nil => rfl
    | cons x xs ihx =>
      simp only [List.map_cons, List.zipWith_cons_cons, List.cons.injEq]
      refine ⟨?_, ihx⟩
      show some (Val.fin ((0 + s * x) / s)) = some (Val.fin x)
      rw [zero_add, mul_div_cancel_left₀ x hs]

/-- Same round trip for a second loss whose backpropagation starts from the
cleared gradients of a first loss of possibly different shape. -/
lemma round_trip_second (g0 g1 : List (List ℚ)) (s : ℚ) (hs : s ≠ 0) :
    divAll (backwardAdd s g1 (zeroShape g0)) s =
      List.zipWith
        (fun r0 r1 => List.zipWith (fun _ y => some (Val.fin y)) r0 r1) g0 g1 := by
  unfold divAll backwardAdd zeroShape
  induction g0 generalizing g1 with
  | nil => cases g1 <;> rfl
  | cons r0 t0 ih =>
    cases g1 with
    | nil => rfl
    | cons r1 t1 =>
      simp only [List.map_cons, List.zipWith_cons_cons, List.cons.injEq]
      refine ⟨?_, ih t1⟩
      induction r0 generalizing r1 with
      | nil => cases r1 <;> rfl
      | cons x xs ihx =>
        cases r1 with
        | nil => rfl
        | cons y ys =>
          simp only [List.map_cons, List.zipWith_cons_cons, List.cons.injEq]
          refine ⟨?_, ihx ys⟩
          show some (Val.fin ((0 + s * y) / s)) = some (Val.fin y)
          rw [zero_add, mul_div_cancel_left₀ y hs]

/-- No overflow is reported over gradients that are all finite. -/
lemma overflowCheck_eq_false_of (G : Groups)
    (h : ∀ p ∈ G.flatten, ∃ q, p = some (Val.fin q)) :
    overflowCheck G = false := by
  unfold overflowCheck iter_params
  rw [List.any_eq_false]
  intro p hp
  obtain ⟨q, rfl⟩ := h p hp
  simp [Val.isFinite]

/-- The first region's unscaled gradients are all finite. -/
lemma overflow_mapped (g : List (List ℚ)) :
    overflowCheck (g.map fun row => row.map fun x => some (Val.fin x)) = false := by
  apply overflowCheck_eq_false_of
  intro p hp
  obtain ⟨r, hr, hpr⟩ := List.mem_flatten.mp hp
  obtain ⟨row, _, rfl⟩ := List.mem_map.mp hr
  obtain ⟨x, _, rfl⟩ := List.mem_map.mp hpr
  exact ⟨x, rfl⟩

/-- The second region's unscaled gradients are all finite. -/
lemma overflow_zip (g0 g1 : List (List ℚ)) :
    overflowCheck
      (List.zipWith
        (fun r0 r1 => List.zipWith (fun _ y => some (Val.fin y)) r0 r1) g0 g1)
      = false := by
  apply overflowCheck_eq_false_of
  intro p hp
  obtain ⟨r, hr, hpr⟩ := List.mem_flatten.mp hp
  obtain ⟨r0, _, r1, _, rfl⟩ := mem_zipWith_elim hr
  obtain ⟨x, _, y, _, rfl⟩ := mem_zipWith_elim hpr
  exact ⟨y, rfl⟩
/-- The restoration zip over one group consumes exactly the group's share
of the flat cache when all the group's gradients are present. -/
lemma addCachedParams_chunk :
    ∀ (ps cs rest : List (Option Val)), ps.length = cs.length →
      (∀ p ∈ ps, p.isSome) →
      addCachedParams ps (cs ++ rest) =
        some (List.zipWith restoreOne ps cs, rest)
  | [], [], rest, _, _ => by cases rest <;> rfl
  | p :: ps, c :: cs, rest, hlen, hsome => by
    have hlen2 : ps.length = cs.length := by
      simpa using hlen
    have hp : p.isSome := hsome p (List.mem_cons_self p ps)
    have hrec := addCachedParams_chunk ps cs rest hlen2
      (fun x hx => hsome x (List.mem_cons_of_mem p hx))
    obtain ⟨g, rfl⟩ := Option.isSome_iff_exists.mp hp
    cases c with
    | none =>
      simp [addCachedParams, hrec, restoreOne]
    | some cv =>
      simp [addCachedParams, hrec, restoreOne]

/-- The restoration zip over all groups, fed the flattening of a cache of
the same shape, restores group by group. -/
lemma addCachedGroups_flatten :
    ∀ (G C : Groups), List.Forall₂ (fun r c => r.length = c.length) G C →
      (∀ r ∈ G, ∀ p ∈ r, p.isSome) →
      addCachedGroups G C.flatten =
        some (List.zipWith (List.zipWith restoreOne) G C)
  | [], [], _, _ => rfl
  | r :: G, c :: C, hshape, hsome => by
    have hlen : r.length = c.length := by
      cases hshape with
      | cons h _ => exact h
    have hshape2 : List.Forall₂ (fun r c => r.length = c.length) G C := by
      cases hshape with
      | cons _ h => exact h
    have hchunk := addCachedParams_chunk r c C.flatten hlen
      (hsome r (List.mem_cons_self r G))
    have hrec := addCachedGroups_flatten G C hshape2
      (fun x hx => hsome x (List.mem_cons_of_mem r hx))
    simp [List.flatten_cons, addCachedGroups, hchunk, hrec]

/-- Composing a zip of two lists with a map of the first collapses to a
single pointwise zip. -/
lemma zipWith_zip_map {α β γ δ ι : Type} (f : γ → δ → ι) (u : α → β → γ)
    (m : α → δ) :
    ∀ (l1 : List α) (l2 : List β),
      List.zipWith f (List.zipWith u l1 l2) (l1.map m) =
        List.zipWith (fun a b => f (u a b) (m a)) l1 l2
  | [], _ => rfl
  | _ :: _, [] => rfl
  | a :: l1, b :: l2 => by
    simp only [List.zipWith_cons_cons, List.map_cons]
    exact congrArg _ (zipWith_zip_map f u m l1 l2)

/-- Shapes match between the second region's gradients and the cached copy
of the first region's gradients. -/
lemma zip_map_shape {u : ℚ → ℚ → Option Val} {m : ℚ → Option Val} :
    ∀ {g0 g1 : List (List ℚ)},
      List.Forall₂ (fun r0 r1 => r0.length = r1.length) g0 g1 →
      List.Forall₂ (fun r c => r.length = c.length)
        (List.zipWith (fun r0 r1 => List.zipWith u r0 r1) g0 g1)
        (g0.map fun row => row.map m)
  | [], [], _ => List.Forall₂.nil
  | r0 :: g0, r1 :: g1, hshape => by
    cases hshape with
    | cons h1 h2 =>
      refine List.Forall₂.cons ?_ (zip_map_shape h2)
      simp [List.length_zipWith, h1]

/-- Clearing gradients of the first region's result leaves the zero shape
of the true gradients. -/
lemma zeroGrad_mapped (g : List (List ℚ)) (f : ℚ → Option Val) :
    zeroGrad (g.map fun row => row.map f) = zeroShape g := by
  unfold zeroGrad zeroShape
  simp [List.map_map, Function.comp]

/-- Parameter count of the first region's result. -/
lemma iter_params_mapped_length (g : List (List ℚ)) (f : ℚ → Option Val) :
    (iter_params (g.map fun row => row.map f)).length = g.flatten.length := by
  unfold iter_params
  rw [show (g.map fun row => row.map f) = g.map (List.map f) from rfl,
    ← List.map_flatten, List.length_map]
/-- Explicit outcome of an active first-of-cycle region with a normal body,
no overflow and no threshold crossing. -/
lemma scale_loss_first {ε : Type} (body : ℚ → Groups → Groups × Option ε)
    (st : OptimWrapper) (sc : LossScaler) (A : Groups)
    (hact : st.active = true) (hidx : st.loss_idx = 0)
    (hsc : st.loss_scaler.get? 0 = some sc) (hn : 0 < st.num_loss)
    (hskl : 0 < st.skip_next.length)
    (hbody : body sc.scale st.groups = (A, none))
    (hnoof : overflowCheck (divAll A sc.scale) = false)
    (hth : ¬ sc.unskipped + 1 = 2000) :
    OptimWrapper.scale_loss body st =
      .ok { st with patched := false,
                    groups := divAll A sc.scale,
                    loss_scaler := st.loss_scaler.set 0 ⟨sc.scale, sc.unskipped + 1⟩,
                    skip_next := st.skip_next.set 0 false,
                    loss_idx := 1 } := by
  simp only [OptimWrapper.scale_loss, OptimWrapper.curLossScaler,
    LossScaler.unscale_and_update, LossScaler.loss_scale, hact, hidx,
    Bool.true_eq_false, if_false, lt_irrefl, hn, if_true, hsc, hbody, hnoof,
    hth, hskl, Bool.false_eq_true, List.length_nil]

/-- Explicit outcome of an active later-in-cycle region with a normal body,
no overflow, no threshold crossing and a successful cache restoration. -/
lemma scale_loss_later {ε : Type} (body : ℚ → Groups → Groups × Option ε)
    (st : OptimWrapper) (sc : LossScaler) (A G2 : Groups)
    (hact : st.active = true) (hpos : 0 < st.loss_idx)
    (hsc : st.loss_scaler.get? st.loss_idx = some sc)
    (hlt : st.loss_idx < st.num_loss)
    (hskl : st.loss_idx < st.skip_next.length)
    (hbody : body sc.scale (zeroGrad st.groups) = (A, none))
    (hnoof : overflowCheck (divAll A sc.scale) = false)
    (hth : ¬ sc.unskipped + 1 = 2000)
    (hclen : 0 < (iter_params st.groups).length)
    (hcache : addCachedGroups (divAll A sc.scale) (iter_params st.groups) =
      some G2) :
    OptimWrapper.scale_loss body st =
      .ok { st with patched := false,
                    groups := G2,
                    loss_scaler :=
                      st.loss_scaler.set st.loss_idx ⟨sc.scale, sc.unskipped + 1⟩,
                    skip_next := st.skip_next.set st.loss_idx false,
                    loss_idx := st.loss_idx + 1 } := by
  simp only [OptimWrapper.scale_loss, OptimWrapper.curLossScaler,
    LossScaler.unscale_and_update, LossScaler.loss_scale, hact, hpos,
    Bool.true_eq_false, if_false, if_true, hsc, hlt, hbody, hnoof,
    hth, hskl, hclen, hcache, Bool.false_eq_true]
/-- A pointwise-equal function gives an equal `zipWith`, with no length
constraint. -/
lemma zipWith_ext {α β γ : Type} {f g : α → β → γ} (h : ∀ a b, f a b = g a b) :
    ∀ (l1 : List α) (l2 : List β), List.zipWith f l1 l2 = List.zipWith g l1 l2
  | [], _ => rfl
  | _ :: _, [] => rfl
  | a :: l1, b :: l2 => by
    simp only [List.zipWith_cons_cons]
    rw [h a b]
    exact congrArg _ (zipWith_ext h l1 l2)

/-- C1: with two loss slots, scaling loss 0 and then loss 1 in one cycle —
each region backpropagating its loss's finite true gradients on the scaled
loss — completes normally, and the second region's save/clear/restore of
the gradient accumulators leaves every parameter's final gradient equal to
unscaled(loss0 gradient) + unscaled(loss1 gradient). -/
theorem two_loss_accumulation (g0 g1 : List (List ℚ))
    (hshape : List.Forall₂ (fun r0 r1 => r0.length = r1.length) g0 g1)
    (hne : 0 < g0.flatten.length) :
    ∃ st1 st2 : OptimWrapper,
      OptimWrapper.scale_loss (backwardBody g0)
        (OptimWrapper.init (zeroShape g0) true 2) = .ok st1 ∧
      OptimWrapper.scale_loss (backwardBody g1) st1 = .ok st2 ∧
      st2.groups =
        List.zipWith
          (fun r0 r1 => List.zipWith (fun a b => some (Val.fin (a + b))) r0 r1)
          g0 g1 := by
  have hsne : LossScaler.new.scale ≠ 0 := by
    norm_num [LossScaler.new]
  have hst1 := scale_loss_first (backwardBody g0)
    (OptimWrapper.init (zeroShape g0) true 2) LossScaler.new
    (backwardAdd LossScaler.new.scale g0 (zeroShape g0))
    rfl rfl rfl Nat.zero_lt_two Nat.zero_lt_two rfl
    (by rw [round_trip_first g0 LossScaler.new.scale hsne]
        exact overflow_mapped g0)
    (by decide)
  set ST1 : OptimWrapper :=
    { OptimWrapper.init (zeroShape g0) true 2 with
        patched := false,
        groups :=
          divAll (backwardAdd LossScaler.new.scale g0 (zeroShape g0))
            LossScaler.new.scale,
        loss_scaler :=
          (OptimWrapper.init (zeroShape g0) true 2).loss_scaler.set 0
            ⟨LossScaler.new.scale, LossScaler.new.unskipped + 1⟩,
        skip_next :=
          (OptimWrapper.init (zeroShape g0) true 2).skip_next.set 0 false,
        loss_idx := 1 } with hST1
  have hG1 : ST1.groups = g0.map fun row => row.map fun x => some (Val.fin x) :=
    round_trip_first g0 LossScaler.new.scale hsne
  have hzg : zeroGrad ST1.groups = zeroShape g0 := by
    rw [hG1, zeroGrad_mapped]
  have hZsome :
      ∀ r ∈ List.zipWith
          (fun r0 r1 => List.zipWith (fun _ y => some (Val.fin y)) r0 r1) g0 g1,
        ∀ p ∈ r, p.isSome := by
    intro r hr p hp
    obtain ⟨r0, _, r1, _, rfl⟩ := mem_zipWith_elim hr
    obtain ⟨x, _, y, _, rfl⟩ := mem_zipWith_elim hp
    rfl
  have hcache :
      addCachedGroups
        (divAll (backwardAdd LossScaler.new.scale g1 (zeroShape g0))
          LossScaler.new.scale)
        (iter_params ST1.groups) =
      some (List.zipWith (List.zipWith restoreOne)
        (List.zipWith
          (fun r0 r1 => List.zipWith (fun _ y => some (Val.fin y)) r0 r1) g0 g1)
        (g0.map fun row => row.map fun x => some (Val.fin x))) := by
    rw [round_trip_second g0 g1 LossScaler.new.scale hsne, hG1]
    exact addCachedGroups_flatten _ _ (zip_map_shape hshape) hZsome
  have hst2 := scale_loss_later (backwardBody g1) ST1 LossScaler.new
    (backwardAdd LossScaler.new.scale g1 (zeroShape g0))
    (List.zipWith (List.zipWith restoreOne)
      (List.zipWith
        (fun r0 r1 => List.zipWith (fun _ y => some (Val.fin y)) r0 r1) g0 g1)
      (g0.map fun row => row.map fun x => some (Val.fin x)))
    rfl Nat.zero_lt_one rfl Nat.one_lt_two Nat.one_lt_two
    (by show (backwardAdd LossScaler.new.scale g1 (zeroGrad ST1.groups), none) = _
        rw [hzg])
    (by rw [round_trip_second g0 g1 LossScaler.new.scale hsne]
        exact overflow_zip g0 g1)
    (by decide)
    (by rw [hG1, iter_params_mapped_length]; exact hne)
    hcache
  refine ⟨ST1, _, hst1, hst2, ?_⟩
  show List.zipWith (List.zipWith restoreOne)
      (List.zipWith
        (fun r0 r1 => List.zipWith (fun _ y => some (Val.fin y)) r0 r1) g0 g1)
      (g0.map fun row => row.map fun x => some (Val.fin x)) = _
  rw [zipWith_zip_map (List.zipWith restoreOne)
    (fun r0 r1 => List.zipWith (fun _ y => some (Val.fin y)) r0 r1)
    (fun row => row.map fun x => some (Val.fin x)) g0 g1]
  refine zipWith_ext (fun a b => ?_) g0 g1
  show List.zipWith restoreOne
      (List.zipWith (fun _ y => some (Val.fin y)) a b)
      (a.map fun x => some (Val.fin x)) = _
  rw [zipWith_zip_map restoreOne (fun _ y => some (Val.fin y))
    (fun x => some (Val.fin x)) a b]
  refine zipWith_ext (fun x y => ?_) a b
  show some (Val.fin (y + x)) = some (Val.fin (x + y))
  rw [add_comm]

/-- Witness for C1: two concrete losses over two parameter groups; the
final gradients are the sums of the two unscaled per-loss gradients. -/
theorem two_loss_accumulation_witness :
    ((OptimWrapper.scale_loss (backwardBody [[(1 : ℚ), 2], [3]])
        ((OptimWrapper.scale_loss (backwardBody [[(3 : ℚ), 5], [7]])
          (OptimWrapper.init (zeroShape [[(3 : ℚ), 5], [7]]) true 2)).state)).state).groups =
      List.zipWith
        (fun r0 r1 => List.zipWith (fun a b => some (Val.fin (a + b))) r0 r1)
        [[(3 : ℚ), 5], [7]] [[(1 : ℚ), 2], [3]] := by
  obtain ⟨st1, st2, h1, h2, h3⟩ :=
    two_loss_accumulation [[(3 : ℚ), 5], [7]] [[(1 : ℚ), 2], [3]]
      (by simp) (by simp)
  rw [h1]
  show (OptimWrapper.scale_loss (backwardBody [[(1 : ℚ), 2], [3]]) st1).state.groups = _
  rw [h2]
  exact h3
